import Mathlib

set_option maxHeartbeats 1000000

/-
  Shallow embedding of the gravity bridge state-machine core
  (module/x/gravity/keeper: keeper.go and batch.go).

  Machine integers are modelled as Nat; Go uint64 arithmetic wraps, which is
  made explicit with `% UINT64_MOD` exactly where the Go code uses uint64
  variables.  Token amounts and fees (sdk.Int / sdk.Uint) are unbounded and
  modelled as plain Nat.  Addresses, denominations and validator identities
  are modelled as String (the Go code canonicalizes them through Hex()).
  Panics of the Go runtime (division by zero in sdk.Uint, Uint64() overflow)
  are modelled by returning `none` from the function that would panic.
-/

def UINT64_MOD : Nat := 18446744073709551616

/-- Wrapping uint64 subtraction, for operands already reduced below 2^64. -/
def sub64 (a b : Nat) : Nat := (a % UINT64_MOD + UINT64_MOD - b % UINT64_MOD) % UINT64_MOD

/-- Value of math.MaxUint32 used by the signer-set normalization. -/
def MaxUint32 : Nat := 4294967295

/-- Hex form of the all-zero Ethereum address, compared against in CurrentSignerSet. -/
def zeroEthereumAddress : String := "0x0000000000000000000000000000000000000000"

/-- ERC20Token from the proto types: a contract address and an unbounded amount. -/
structure ERC20Token where
  contract : String
  amount : Nat
deriving DecidableEq

/-- SendToEthereum pool entry (id, sender, recipient, amount, fee). -/
structure SendToEthereum where
  id : Nat
  sender : String
  ethereumRecipient : String
  erc20Token : ERC20Token
  erc20Fee : ERC20Token
deriving DecidableEq

/-- BatchTx outgoing transaction, as built by BuildBatchTx. -/
structure BatchTx where
  batchNonce : Nat
  timeout : Nat
  transactions : List SendToEthereum
  tokenContract : String
  height : Nat
deriving DecidableEq

/-- SignerSetTx outgoing transaction. -/
structure SignerSetTx where
  nonce : Nat
  height : Nat
  signers : List (String × Nat)
deriving DecidableEq

/-- ContractCallTx outgoing transaction. -/
structure ContractCallTx where
  invalidationNonce : Nat
  invalidationScope : String
  address : String
  payload : String
  timeout : Nat
  height : Nat
deriving DecidableEq

/-- The polymorphic outgoing-tx container: the three variants stored behind
the outgoing-tx prefix of the KV store. -/
inductive OutgoingTx where
  | batch (b : BatchTx)
  | signerSet (ss : SignerSetTx)
  | call (cc : ContractCallTx)
deriving DecidableEq

/-- Type-tagged store index identifying an outgoing tx
(tag plus type specific identity, per the key layout). -/
inductive StoreIndex where
  | batch (tokenContract : String) (nonce : Nat)
  | signerSet (nonce : Nat)
  | call (scope : String) (nonce : Nat)
deriving DecidableEq

/-- Modelled from the spec: GetStoreIndex of the types package (not under src).
A store index is the type tag together with the type-specific identity:
batch key is tokenContract and batchNonce, signer-set key is the nonce,
contract-call key is invalidationScope and invalidationNonce. -/
def OutgoingTx.GetStoreIndex : OutgoingTx → StoreIndex
  | .batch b => .batch b.tokenContract b.batchNonce
  | .signerSet ss => .signerSet ss.nonce
  | .call cc => .call cc.invalidationScope cc.invalidationNonce

/-- Module parameters read through the param space. -/
structure Params where
  bridgeEthereumAddress : String
  bridgeChainId : Nat
  averageBlockTime : Nat
  averageEthereumBlockTime : Nat
  targetEthTxTimeout : Nat
deriving DecidableEq

/-- The keeper state: every persisted key space the claims touch.
`lastObservedHeights` is the (CosmosHeight, EthereumHeight) pair stored under
LastEthereumBlockHeightKey. `sigs` is the Ethereum-signature index keyed by
(outgoing-tx store index, validator). The staking and denom directories are
snapshots of the external collaborators read by the keeper. -/
structure GravityState where
  otxs : List OutgoingTx
  pool : List SendToEthereum
  sigs : List (StoreIndex × String × String)
  lastBatchNonce : Nat
  lastSignerSetNonce : Nat
  lastObservedHeights : Nat × Nat
  lastObservedSignerSet : SignerSetTx
  lastObservedEventNonce : Nat
  eventNonceByVal : List (String × Nat)
  eventVoteRecords : List (String × List String)
  params : Params
  blockHeight : Nat
  denomDirectory : List (String × Bool × String)
  bondedValidators : List String
  valEthAddress : List (String × String)
  valLastPower : List (String × Nat)
  events : List String
deriving DecidableEq

/-- GetValidatorEthereumAddress: reads the validator to Ethereum address index;
a missing entry decodes (through BytesToAddress of nil) to the zero address. -/
def GetValidatorEthereumAddress (s : GravityState) (val : String) : String :=
  match s.valEthAddress.find? (fun e => decide (e.1 = val)) with
  | some e => e.2
  | none => zeroEthereumAddress

/-- GetLastValidatorPower of the external staking keeper, cast to uint64. -/
def GetLastValidatorPower (s : GravityState) (val : String) : Nat :=
  match s.valLastPower.find? (fun e => decide (e.1 = val)) with
  | some e => e.2 % UINT64_MOD
  | none => 0

/-- The signers accumulated by the first loop of CurrentSignerSet: bonded
validators in staking order whose registered Ethereum address is not the zero
address, paired with their last committed power. -/
def includedSigners (s : GravityState) : List (String × Nat) :=
  s.bondedValidators.filterMap (fun val =>
    let ethAddr := GetValidatorEthereumAddress s val
    if ethAddr ≠ zeroEthereumAddress then some (ethAddr, GetLastValidatorPower s val)
    else none)

/-- The uint64 accumulation `totalPower += p` of CurrentSignerSet (wraps). -/
def totalPowerWrapped (l : List (String × Nat)) : Nat :=
  l.foldl (fun acc p => (acc + p.2) % UINT64_MOD) 0

/-- The unbounded sum of the included powers. -/
def includedPowerSum (s : GravityState) : Nat :=
  ((includedSigners s).map (fun p => p.2)).sum

/-- CurrentSignerSet: filters bonded validators by a nonzero Ethereum address and
normalizes each power to `p * MaxUint32 / totalPower` with unbounded-integer
multiplication (sdk.Uint) and truncation back to uint64.  The Go code panics
when the normalization loop runs with totalPower = 0 (big.Int division by
zero) or when a quotient exceeds uint64 (Uint64() out of bound); both panics
are modelled as `none`. -/
def CurrentSignerSet (s : GravityState) : Option (List (String × Nat)) :=
  let signers := includedSigners s
  let totalPower := totalPowerWrapped signers
  if signers.isEmpty then some []
  else if totalPower = 0 then none
  else
    let normalized := signers.map (fun p => (p.1, p.2 * MaxUint32 / totalPower))
    if normalized.all (fun p => decide (p.2 < UINT64_MOD)) then some normalized
    else none

/- Arithmetic lemmas for the normalization bounds. -/

theorem normSum_mul_le (l : List Nat) (M T : Nat) :
    ((l.map (fun p => p * M / T)).sum) * T ≤ l.sum * M := by
  induction l with
  | nil => simp
  | cons p l ih =>
      simp only [List.map_cons, List.sum_cons]
      calc (p * M / T + (l.map (fun p => p * M / T)).sum) * T
          = p * M / T * T + ((l.map (fun p => p * M / T)).sum) * T := by ring
        _ ≤ p * M + l.sum * M := by
            exact Nat.add_le_add (Nat.div_mul_le_self (p * M) T) ih
        _ = (p + l.sum) * M := by ring

theorem sum_mul_le_normSum (l : List Nat) (M T : Nat) (hT : 0 < T) :
    l.sum * M ≤ ((l.map (fun p => p * M / T)).sum) * T + l.length * (T - 1) := by
  induction l with
  | nil => simp
  | cons p l ih =>
      simp only [List.map_cons, List.sum_cons, List.length_cons]
      have hmod : p * M % T ≤ T - 1 := Nat.le_sub_one_of_lt (Nat.mod_lt _ hT)
      have hdm : T * (p * M / T) + p * M % T = p * M := Nat.div_add_mod (p * M) T
      calc (p + l.sum) * M = p * M + l.sum * M := by ring
        _ = (T * (p * M / T) + p * M % T) + l.sum * M := by rw [hdm]
        _ ≤ (T * (p * M / T) + (T - 1)) +
              (((l.map (fun p => p * M / T)).sum) * T + l.length * (T - 1)) := by
            exact Nat.add_le_add (Nat.add_le_add_left hmod _) ih
        _ = (p * M / T + (l.map (fun p => p * M / T)).sum) * T +
              (l.length + 1) * (T - 1) := by ring

theorem totalPowerWrapped_foldl (l : List (String × Nat)) (a : Nat) :
    l.foldl (fun acc p => (acc + p.2) % UINT64_MOD) (a % UINT64_MOD) =
      (a + (l.map (fun p => p.2)).sum) % UINT64_MOD := by
  induction l generalizing a with
  | nil => simp
  | cons p l ih =>
      simp only [List.foldl_cons, List.map_cons, List.sum_cons]
      have h1 : (a % UINT64_MOD + p.2) % UINT64_MOD = (a + p.2) % UINT64_MOD := by
        conv_rhs => rw [Nat.add_mod]
        conv_lhs => rw [Nat.add_mod]
        rw [Nat.mod_mod_of_dvd a (dvd_refl UINT64_MOD)]
      rw [h1, ih (a + p.2)]
      congr 1
      ring

theorem totalPowerWrapped_eq_sum_mod (l : List (String × Nat)) :
    totalPowerWrapped l = (l.map (fun p => p.2)).sum % UINT64_MOD := by
  have h := totalPowerWrapped_foldl l 0
  simpa [totalPowerWrapped] using h

/-- Claim C1 (amended): when the unbounded sum of the included powers is
positive and does not overflow uint64 (so the code's `totalPower` equals the
true total), CurrentSignerSet returns the signer list with each power replaced
by `floor(p * (2^32 - 1) / totalPower)`; the normalized powers sum to at most
2^32 - 1, and the truncation loss is strictly below the number of included
signers. -/
theorem CurrentSignerSet_normalized_bounds (s : GravityState)
    (hlt : includedPowerSum s < UINT64_MOD)
    (hpos : 0 < includedPowerSum s) :
    CurrentSignerSet s =
      some ((includedSigners s).map
        (fun p => (p.1, p.2 * MaxUint32 / includedPowerSum s))) ∧
    ((includedSigners s).map
        (fun p => p.2 * MaxUint32 / includedPowerSum s)).sum ≤ MaxUint32 ∧
    MaxUint32 - ((includedSigners s).map
        (fun p => p.2 * MaxUint32 / includedPowerSum s)).sum
      < (includedSigners s).length := by
  set l : List Nat := (includedSigners s).map (fun p => p.2) with hl
  have hTsum : includedPowerSum s = l.sum := rfl
  have hT : 0 < l.sum := by rw [← hTsum]; exact hpos
  have hwrap : totalPowerWrapped (includedSigners s) = l.sum := by
    rw [totalPowerWrapped_eq_sum_mod, ← hl, Nat.mod_eq_of_lt (by rw [← hTsum]; exact hlt)]
  have hne : ¬ (includedSigners s).isEmpty := by
    intro h
    rw [List.isEmpty_iff] at h
    rw [hTsum] at hpos
    simp [hl, h] at hpos
  -- every normalized power is bounded by MaxUint32, hence below 2^64
  have hbound : ∀ p ∈ includedSigners s, p.2 * MaxUint32 / l.sum ≤ MaxUint32 := by
    intro p hp
    have hple : p.2 ≤ l.sum := by
      apply List.single_le_sum (by intro x _; exact Nat.zero_le x)
      rw [hl]; exact List.mem_map_of_mem _ hp
    calc p.2 * MaxUint32 / l.sum ≤ l.sum * MaxUint32 / l.sum :=
          Nat.div_le_div_right (Nat.mul_le_mul_right _ hple)
      _ = MaxUint32 := Nat.mul_div_cancel_left _ hT
  have hall : ((includedSigners s).map
      (fun p => (p.1, p.2 * MaxUint32 / l.sum))).all
        (fun p => decide (p.2 < UINT64_MOD)) = true := by
    rw [List.all_eq_true]
    intro x hx
    rw [List.mem_map] at hx
    obtain ⟨p, hp, rfl⟩ := hx
    simp only [decide_eq_true_eq]
    exact lt_of_le_of_lt (hbound p hp) (by norm_num [MaxUint32, UINT64_MOD])
  have heq : CurrentSignerSet s =
      some ((includedSigners s).map
        (fun p => (p.1, p.2 * MaxUint32 / includedPowerSum s))) := by
    unfold CurrentSignerSet
    simp only []
    rw [hwrap]
    rw [if_neg hne]
    rw [if_neg (by omega : ¬ l.sum = 0)]
    rw [if_pos hall]
    rw [hTsum]
  refine ⟨heq, ?_, ?_⟩
  · -- sum of normalized powers is at most MaxUint32
    have h1 := normSum_mul_le l MaxUint32 l.sum
    have h2 : ((includedSigners s).map
        (fun p => p.2 * MaxUint32 / includedPowerSum s)).sum =
        ((l.map (fun p => p * MaxUint32 / l.sum)).sum) := by
      rw [hTsum, hl, List.map_map]; rfl
    rw [h2]
    have := Nat.le_of_mul_le_mul_right
      (by calc ((l.map (fun p => p * MaxUint32 / l.sum)).sum) * l.sum
            ≤ l.sum * MaxUint32 := h1
          _ = MaxUint32 * l.sum := by ring) hT
    exact this
  · -- truncation loss strictly below the number of signers
    have h2 : ((includedSigners s).map
        (fun p => p.2 * MaxUint32 / includedPowerSum s)).sum =
        ((l.map (fun p => p * MaxUint32 / l.sum)).sum) := by
      rw [hTsum, hl, List.map_map]; rfl
    have hlen : (includedSigners s).length = l.length := by rw [hl, List.length_map]
    rw [h2, hlen]
    have hmain := sum_mul_le_normSum l MaxUint32 l.sum hT
    set F := (l.map (fun p => p * MaxUint32 / l.sum)).sum with hF
    set K := l.length with hK
    have hk1 : 1 ≤ K := by
      rcases l with _ | ⟨x, xs⟩
      · simp at hT
      · simp [hK]
    -- suppose MaxUint32 ≥ F + K and derive a contradiction
    by_contra hcon
    push_neg at hcon
    have hge : F + K ≤ MaxUint32 := by omega
    have hstep : (F + K) * l.sum ≤ MaxUint32 * l.sum :=
      Nat.mul_le_mul_right l.sum hge
    have hexp : (F + K) * l.sum = F * l.sum + K * l.sum := by ring
    have hsub : K * (l.sum - 1) + K = K * l.sum := by
      obtain ⟨t, ht⟩ : ∃ t, l.sum = t + 1 := ⟨l.sum - 1, by omega⟩
      rw [ht]
      simp only [Nat.add_sub_cancel]
      ring
    have hcomm : MaxUint32 * l.sum = l.sum * MaxUint32 := by ring
    omega

/-- Witness for C1: the spec's worked example, powers 100, 50, 50 with distinct
nonzero Ethereum addresses, normalizes to 2147483647, 1073741823, 1073741823. -/
def signerExampleState : GravityState :=
  { otxs := [], pool := [], sigs := [], lastBatchNonce := 0, lastSignerSetNonce := 0,
    lastObservedHeights := (0, 0),
    lastObservedSignerSet := { nonce := 0, height := 0, signers := [] },
    lastObservedEventNonce := 0, eventNonceByVal := [], eventVoteRecords := [],
    params := { bridgeEthereumAddress := "0xbridge", bridgeChainId := 1,
                averageBlockTime := 0, averageEthereumBlockTime := 0,
                targetEthTxTimeout := 0 },
    blockHeight := 10, denomDirectory := [],
    bondedValidators := ["val1", "val2", "val3"],
    valEthAddress := [("val1", "0x01"), ("val2", "0x02"), ("val3", "0x03")],
    valLastPower := [("val1", 100), ("val2", 50), ("val3", 50)],
    events := [] }

theorem CurrentSignerSet_normalized_bounds_witness :
    includedPowerSum signerExampleState < UINT64_MOD ∧
    0 < includedPowerSum signerExampleState ∧
    (CurrentSignerSet signerExampleState =
      some ((includedSigners signerExampleState).map
        (fun p => (p.1, p.2 * MaxUint32 / includedPowerSum signerExampleState))) ∧
     ((includedSigners signerExampleState).map
        (fun p => p.2 * MaxUint32 / includedPowerSum signerExampleState)).sum ≤ MaxUint32 ∧
     MaxUint32 - ((includedSigners signerExampleState).map
        (fun p => p.2 * MaxUint32 / includedPowerSum signerExampleState)).sum
       < (includedSigners signerExampleState).length) :=
  ⟨by decide, by decide,
   CurrentSignerSet_normalized_bounds signerExampleState (by decide) (by decide)⟩

/-- State exhibiting uint64 overflow of the `totalPower` accumulator: two
included validators with powers 3 * 2^62 and 2^63.  Their true total is
2^64 + 2^62, the uint64 accumulator wraps to 2^62, and normalization then
produces powers summing to 5 * (2^32 - 1). -/
def overflowSignerState : GravityState :=
  { signerExampleState with
    bondedValidators := ["val1", "val2"],
    valEthAddress := [("val1", "0x01"), ("val2", "0x02")],
    valLastPower := [("val1", 13835058055282163712), ("val2", 9223372036854775808)] }

/-- Counterexample for C1: on `overflowSignerState` the call returns normally
(no panic), yet the normalized powers sum to 21474836475 > 2^32 - 1, and each
returned power differs from floor(p * (2^32 - 1) / truePower) for the true
(unbounded) total power. -/
theorem CurrentSignerSet_overflow_counterexample :
    CurrentSignerSet overflowSignerState =
      some [("0x01", 12884901885), ("0x02", 8589934590)] ∧
    12884901885 + 8589934590 > MaxUint32 := by
  constructor
  · decide
  · decide

/-- Claim C7 (amended): when no bonded validator carries a nonzero registered
Ethereum address, the signer list is empty, totalPower is zero, and the call
returns the empty list without reaching the normalizing division; every
included signer has a nonzero Ethereum address (zero-address validators are
excluded).  However, when included signers exist whose powers sum to zero,
the normalizing division by totalPower IS reached and panics (modelled as
`none`), so the call does not return an empty list in that case. -/
theorem CurrentSignerSet_zero_total (s : GravityState) :
    (includedSigners s = [] → CurrentSignerSet s = some []) ∧
    (∀ p ∈ includedSigners s, p.1 ≠ zeroEthereumAddress) ∧
    (includedSigners s ≠ [] → totalPowerWrapped (includedSigners s) = 0 →
      CurrentSignerSet s = none) := by
  refine ⟨?_, ?_, ?_⟩
  · intro h
    unfold CurrentSignerSet
    simp [h]
  · intro p hp
    simp only [includedSigners, List.mem_filterMap] at hp
    obtain ⟨val, _, hv⟩ := hp
    by_cases hz : GetValidatorEthereumAddress s val ≠ zeroEthereumAddress
    · simp only [if_pos hz, Option.some.injEq] at hv
      rw [← hv]
      exact hz
    · simp [if_neg hz] at hv
  · intro hne hz
    unfold CurrentSignerSet
    have : ¬ (includedSigners s).isEmpty := by
      simpa [List.isEmpty_iff] using hne
    simp [this, hz]

/-- State with a single bonded validator registered with a nonzero Ethereum
address but zero last committed power: the included-signer list is nonempty,
totalPower is zero. -/
def zeroPowerState : GravityState :=
  { signerExampleState with
    bondedValidators := ["val1"],
    valEthAddress := [("val1", "0x01")],
    valLastPower := [("val1", 0)] }

theorem CurrentSignerSet_zero_total_witness :
    CurrentSignerSet zeroPowerState = none ∧
    CurrentSignerSet { signerExampleState with valEthAddress := [] } = some [] :=
  ⟨(CurrentSignerSet_zero_total zeroPowerState).2.2 (by decide) (by decide),
   (CurrentSignerSet_zero_total
      { signerExampleState with valEthAddress := [] }).1 (by decide)⟩

/-- Counterexample for C7: `zeroPowerState` has total included power zero, yet
CurrentSignerSet does not return an empty list there — the normalizing
division by totalPower is reached and panics (modelled as `none`). -/
theorem CurrentSignerSet_zero_total_counterexample :
    totalPowerWrapped (includedSigners zeroPowerState) = 0 ∧
    CurrentSignerSet zeroPowerState ≠ some [] := by
  constructor
  · decide
  · decide

/-
  Outgoing transaction store, unbatched pool and the batch builder
  (batch.go together with the store helpers of keeper.go).
-/

/-- GetOutgoingTx: single logical read of the outgoing-tx store by store index. -/
def GetOutgoingTx (s : GravityState) (idx : StoreIndex) : Option OutgoingTx :=
  s.otxs.find? (fun x => decide (x.GetStoreIndex = idx))

/-- DeleteOutgoingTx: unconditional delete by store index. -/
def DeleteOutgoingTx (s : GravityState) (idx : StoreIndex) : GravityState :=
  { s with otxs := s.otxs.filter (fun x => decide (x.GetStoreIndex ≠ idx)) }

/-- SetOutgoingTx: put at the store index, overwriting an existing entry. -/
def SetOutgoingTx (s : GravityState) (o : OutgoingTx) : GravityState :=
  { s with otxs :=
      if s.otxs.any (fun x => decide (x.GetStoreIndex = o.GetStoreIndex))
      then s.otxs.map (fun x => if x.GetStoreIndex = o.GetStoreIndex then o else x)
      else s.otxs ++ [o] }

/-- Reads the batch stored under MakeBatchTxKey(tokenContract, nonce). -/
def getBatchTx (s : GravityState) (tokenContract : String) (nonce : Nat) : Option BatchTx :=
  match GetOutgoingTx s (StoreIndex.batch tokenContract nonce) with
  | some (OutgoingTx.batch b) => some b
  | _ => none

/-- Modelled from the spec: the unbatched pool index ordering (not under src;
iterateUnbatchedSendToEthereumsByContract lives in pool.go).  Entries for a
token contract are delivered ordered by fee amount descending, then id. -/
def steBefore (a b : SendToEthereum) : Bool :=
  decide (b.erc20Fee.amount < a.erc20Fee.amount) ||
  (decide (a.erc20Fee.amount = b.erc20Fee.amount) && decide (a.id ≤ b.id))

def insertSteSorted (x : SendToEthereum) : List SendToEthereum → List SendToEthereum
  | [] => [x]
  | y :: ys => if steBefore x y then x :: y :: ys else y :: insertSteSorted x ys

def sortStes (l : List SendToEthereum) : List SendToEthereum :=
  l.foldr insertSteSorted []

/-- Modelled from the spec: the sequence of unbatched SendToEthereums delivered
by iterateUnbatchedSendToEthereumsByContract for a token contract — the pool
entries whose fee is denominated in that contract, fee-descending. -/
def unbatchedByContract (s : GravityState) (tokenContract : String) : List SendToEthereum :=
  sortStes (s.pool.filter (fun ste => decide (ste.erc20Fee.contract = tokenContract)))

/-- Modelled from the spec: deleteUnbatchedSendToEthereum (pool.go, not under
src) removes the pool entry keyed by (fee contract, fee amount, id). -/
def deleteUnbatchedSendToEthereum (pool : List SendToEthereum) (ste : SendToEthereum) :
    List SendToEthereum :=
  pool.filter (fun p => decide (¬ (p.erc20Fee.contract = ste.erc20Fee.contract ∧
    p.erc20Fee.amount = ste.erc20Fee.amount ∧ p.id = ste.id)))

/-- GetFees of a BatchTx, modelled from the spec: the summed fee amounts of the
batch's transactions (types package, not under src). -/
def batchFees (b : BatchTx) : Nat :=
  (b.transactions.map (fun tx => tx.erc20Fee.amount)).sum

/-- getLastOutgoingBatchByTokenType: scans all stored batches keeping the one
with the greatest nonce so far (starting from nonce 0) for the given token. -/
def getLastOutgoingBatchByTokenType (s : GravityState) (token : String) : Option BatchTx :=
  s.otxs.foldl (fun acc otx =>
    match otx with
    | OutgoingTx.batch btx =>
        if btx.tokenContract = token ∧
            btx.batchNonce > (match acc with | some lb => lb.batchNonce | none => 0)
        then some btx else acc
    | _ => acc) none

/-- The fee-summing loop of getBatchFeesByTokenType: adds each fee and stops
once the (int) counter equals maxElements. -/
def feeLoop : List SendToEthereum → Int → Nat → Nat → Nat
  | [], _, _, acc => acc
  | tx :: rest, maxElements, i, acc =>
      let acc2 := acc + tx.erc20Fee.amount
      let i2 := i + 1
      if (i2 : Int) = maxElements then acc2 else feeLoop rest maxElements i2 acc2

/-- getBatchFeesByTokenType: fees the next batch of this token type would have. -/
def getBatchFeesByTokenType (s : GravityState) (tokenContract : String)
    (maxElements : Int) : Nat :=
  feeLoop (unbatchedByContract s tokenContract) maxElements 0 0

/-- The selection loop of BuildBatchTx: appends each unbatched tx and stops
once the selected count equals maxElements (an int comparison). -/
def selectLoop : List SendToEthereum → Int → List SendToEthereum → List SendToEthereum
  | [], _, acc => acc
  | ste :: rest, maxElements, acc =>
      let acc2 := acc ++ [ste]
      if (acc2.length : Int) = maxElements then acc2 else selectLoop rest maxElements acc2

/-- GetLastObservedEthereumBlockHeight, modelled from the spec: the aggregated
(CosmosHeight, EthereumHeight) record under LastEthereumBlockHeightKey (the
getter itself is not under src, but MigrateGravityContract writes the key). -/
def GetLastObservedEthereumBlockHeight (s : GravityState) : Nat × Nat :=
  s.lastObservedHeights

/-- getTimeoutHeight: projects the current Ethereum height from the last
observed heights and adds the target timeout in blocks.  All arithmetic is
uint64 (wrapping); Go would panic if AverageEthereumBlockTime were zero, a
case no claim exercises (Nat division by zero yields 0 here). -/
def getTimeoutHeight (s : GravityState) : Nat :=
  let heights := GetLastObservedEthereumBlockHeight s
  if heights.1 = 0 ∨ heights.2 = 0 then 0
  else
    let projectedMillis := sub64 s.blockHeight heights.1 * s.params.averageBlockTime % UINT64_MOD
    let projectedCurrentEthereumHeight :=
      (projectedMillis / s.params.averageEthereumBlockTime + heights.2) % UINT64_MOD
    let blocksToAdd := s.params.targetEthTxTimeout / s.params.averageEthereumBlockTime
    (projectedCurrentEthereumHeight + blocksToAdd) % UINT64_MOD

/-- incrementLastOutgoingBatchNonce: reads the persisted counter, adds one,
persists and returns the new value (modelled on the state snapshot). -/
def incrementLastOutgoingBatchNonce (s : GravityState) : GravityState × Nat :=
  ({ s with lastBatchNonce := s.lastBatchNonce + 1 }, s.lastBatchNonce + 1)

/-- The profitability refusal of BuildBatchTx: true when a batch for this token
exists whose fees are at least the candidate fees. -/
def unprofitable (s : GravityState) (tokenContract : String) (maxElements : Int) : Bool :=
  match getLastOutgoingBatchByTokenType s tokenContract with
  | some lastBatch => decide (getBatchFeesByTokenType s tokenContract maxElements ≤ batchFees lastBatch)
  | none => false

/-- BuildBatchTx: refuses on maxElements 0, on a still-profitable pending batch
and on an empty selection; otherwise removes the selected transactions from the
pool, assigns the incremented nonce and persists the new batch. -/
def BuildBatchTx (s : GravityState) (contractAddress : String) (maxElements : Int) :
    GravityState × Option BatchTx :=
  if maxElements = 0 then (s, none)
  else if unprofitable s contractAddress maxElements then (s, none)
  else
    let selected := selectLoop (unbatchedByContract s contractAddress) maxElements []
    if selected = [] then (s, none)
    else
      let pool2 := selected.foldl deleteUnbatchedSendToEthereum s.pool
      let nonce := s.lastBatchNonce + 1
      let batch : BatchTx :=
        { batchNonce := nonce, timeout := getTimeoutHeight s,
          transactions := selected, tokenContract := contractAddress,
          height := s.blockHeight }
      ((SetOutgoingTx
          { s with pool := pool2, lastBatchNonce := nonce,
                   events := s.events ++ ["outgoing_batch"] }
          (OutgoingTx.batch batch)), some batch)

/-- CancelBatchTx: re-inserts every transaction of the batch into the unbatched
pool, deletes the batch from the outgoing-tx store and emits a cancel event. -/
def CancelBatchTx (s : GravityState) (batch : BatchTx) : GravityState :=
  { s with
    pool := s.pool ++ batch.transactions,
    otxs := s.otxs.filter (fun x =>
      decide (x.GetStoreIndex ≠ StoreIndex.batch batch.tokenContract batch.batchNonce)),
    events := s.events ++ ["outgoing_batch_canceled"] }

/-- The batches cancelled by batchTxExecuted: every stored batch with the same
token contract and a strictly lower nonce than the executed batch. -/
def lowerNonceBatches (s : GravityState) (batchTx : BatchTx) : List BatchTx :=
  s.otxs.filterMap (fun otx =>
    match otx with
    | OutgoingTx.batch btx =>
        if btx.batchNonce < batchTx.batchNonce ∧ btx.tokenContract = batchTx.tokenContract
        then some btx else none
    | _ => none)

/-- Modelled from the spec: ERC20ToDenomLookup of the ERC20-to-denom directory
(not under src).  Returns (isCosmosOriginated, denom); a contract absent from
the directory is foreign-originated with a derived voucher denom. -/
def ERC20ToDenomLookup (s : GravityState) (contract : String) : Bool × String :=
  match s.denomDirectory.find? (fun e => decide (e.1 = contract)) with
  | some e => (e.2.1, e.2.2)
  | none => (false, "gravity" ++ contract)

/-- The burn-total loop of batchTxExecuted: sums amount + fee of every
transaction, failing at the first transaction whose amount or fee contract
differs from the batch's token contract. -/
def sumBatchBurn : List SendToEthereum → String → Nat → Option Nat
  | [], _, acc => some acc
  | tx :: rest, tokenContract, acc =>
      if tx.erc20Token.contract ≠ tokenContract ∨ tx.erc20Fee.contract ≠ tokenContract
      then none
      else sumBatchBurn rest tokenContract (acc + (tx.erc20Token.amount + tx.erc20Fee.amount))

/-- Result of batchTxExecuted: the final keeper state, the bank burn calls made
(denom, amount), and the returned error if any. -/
structure ExecOutcome where
  state : GravityState
  burns : List (String × Nat)
  error : Option String
deriving DecidableEq

/-- batchTxExecuted: on an unknown batch logs and succeeds; otherwise cancels
every lower-nonce batch of the same token, burns the batch total for
non-cosmos-originated tokens (failing on a contract mismatch inside the batch
or on a bank burn failure, modelled by the burnFails flag), and finally
deletes the executed batch. -/
def batchTxExecuted (s : GravityState) (burnFails : Bool) (tokenContract : String)
    (nonce : Nat) : ExecOutcome :=
  match getBatchTx s tokenContract nonce with
  | none => ⟨s, [], none⟩
  | some batchTx =>
      let s1 := (lowerNonceBatches s batchTx).foldl CancelBatchTx s
      let lookup := ERC20ToDenomLookup s1 batchTx.tokenContract
      if lookup.1 then
        ⟨DeleteOutgoingTx s1 (StoreIndex.batch batchTx.tokenContract batchTx.batchNonce),
         [], none⟩
      else
        match sumBatchBurn batchTx.transactions batchTx.tokenContract 0 with
        | none => ⟨s1, [], some "detected invalid batch, contains tx with different contract address"⟩
        | some total =>
            if burnFails then ⟨s1, [(lookup.2, total)], some "burn vouchers coins"⟩
            else
              ⟨DeleteOutgoingTx s1 (StoreIndex.batch batchTx.tokenContract batchTx.batchNonce),
               [(lookup.2, total)], none⟩

/-- The keeper operations of the batch subsystem, for sequencing claims. -/
inductive GravityOp where
  | build (contract : String) (maxElements : Int)
  | execute (burnFails : Bool) (contract : String) (nonce : Nat)
  | cancel (contract : String) (nonce : Nat)
deriving DecidableEq

/-- Applies one batch-subsystem operation to the keeper state. -/
def applyOp (s : GravityState) : GravityOp → GravityState
  | .build c m => (BuildBatchTx s c m).1
  | .execute bf c n => (batchTxExecuted s bf c n).state
  | .cancel c n =>
      match getBatchTx s c n with
      | some b => CancelBatchTx s b
      | none => s

/-- Applies a sequence of batch-subsystem operations in order. -/
def applyOps (s : GravityState) (ops : List GravityOp) : GravityState :=
  ops.foldl applyOp s

/- Store and cancellation helper lemmas. -/

theorem find?_filter_of_imp {α : Type} (l : List α) (p q : α → Bool)
    (h : ∀ x, q x = true → p x = true) :
    (l.filter p).find? q = l.find? q := by
  induction l with
  | nil => rfl
  | cons a l ih =>
      by_cases hq : q a = true
      · rw [List.filter_cons, if_pos (h a hq), List.find?_cons_of_pos _ hq,
          List.find?_cons_of_pos _ hq]
      · by_cases hp : p a = true
        · rw [List.filter_cons, if_pos hp, List.find?_cons_of_neg _ hq,
            List.find?_cons_of_neg _ hq, ih]
        · rw [List.filter_cons, if_neg hp, List.find?_cons_of_neg _ hq, ih]

theorem getBatchTx_some (s : GravityState) (c : String) (n : Nat) (B : BatchTx)
    (h : getBatchTx s c n = some B) :
    OutgoingTx.batch B ∈ s.otxs ∧ B.tokenContract = c ∧ B.batchNonce = n := by
  unfold getBatchTx GetOutgoingTx at h
  cases hf : s.otxs.find? (fun x => decide (x.GetStoreIndex = StoreIndex.batch c n)) with
  | none => rw [hf] at h; cases h
  | some o =>
      rw [hf] at h
      have hmem := List.mem_of_find?_eq_some hf
      have hpred := List.find?_some hf
      rw [decide_eq_true_eq] at hpred
      cases o with
      | batch b =>
          have hb : b = B := by
            simpa using h
          subst hb
          have hidx : b.tokenContract = c ∧ b.batchNonce = n := by
            simpa [OutgoingTx.GetStoreIndex] using hpred
          exact ⟨hmem, hidx.1, hidx.2⟩
      | signerSet ss => simp [OutgoingTx.GetStoreIndex] at hpred
      | call cc => simp [OutgoingTx.GetStoreIndex] at hpred

theorem foldl_cancel_otxs (l : List BatchTx) (s : GravityState) :
    (l.foldl CancelBatchTx s).otxs =
      s.otxs.filter (fun x => l.all (fun b =>
        decide (x.GetStoreIndex ≠ StoreIndex.batch b.tokenContract b.batchNonce))) := by
  induction l generalizing s with
  | nil => simp
  | cons b l ih =>
      rw [List.foldl_cons, ih]
      show (s.otxs.filter _).filter _ = _
      rw [List.filter_filter]
      apply List.filter_congr
      intro x _
      simp [List.all_cons, Bool.and_comm]

theorem foldl_cancel_pool_base (l : List BatchTx) (s : GravityState)
    (tx : SendToEthereum) (h : tx ∈ s.pool) :
    tx ∈ (l.foldl CancelBatchTx s).pool := by
  induction l generalizing s with
  | nil => exact h
  | cons b l ih =>
      rw [List.foldl_cons]
      exact ih _ (by simp only [CancelBatchTx, List.mem_append]; exact Or.inl h)

theorem foldl_cancel_pool_mem (l : List BatchTx) (s : GravityState)
    (b : BatchTx) (hb : b ∈ l) (tx : SendToEthereum) (htx : tx ∈ b.transactions) :
    tx ∈ (l.foldl CancelBatchTx s).pool := by
  induction l generalizing s with
  | nil => cases hb
  | cons a l ih =>
      rw [List.foldl_cons]
      rcases List.mem_cons.mp hb with rfl | hb2
      · exact foldl_cancel_pool_base l _ tx
          (by simp only [CancelBatchTx, List.mem_append]; exact Or.inr htx)
      · exact ih _ hb2

theorem foldl_cancel_fields (l : List BatchTx) (s : GravityState) :
    (l.foldl CancelBatchTx s).lastBatchNonce = s.lastBatchNonce ∧
    (l.foldl CancelBatchTx s).denomDirectory = s.denomDirectory := by
  induction l generalizing s with
  | nil => exact ⟨rfl, rfl⟩
  | cons b l ih =>
      rw [List.foldl_cons]
      exact ⟨(ih (CancelBatchTx s b)).1, (ih (CancelBatchTx s b)).2⟩

theorem ERC20ToDenomLookup_congr (s1 s2 : GravityState) (c : String)
    (h : s1.denomDirectory = s2.denomDirectory) :
    ERC20ToDenomLookup s1 c = ERC20ToDenomLookup s2 c := by
  unfold ERC20ToDenomLookup
  rw [h]

theorem mem_lowerNonceBatches (s : GravityState) (B b : BatchTx) :
    b ∈ lowerNonceBatches s B ↔
      OutgoingTx.batch b ∈ s.otxs ∧ b.batchNonce < B.batchNonce ∧
        b.tokenContract = B.tokenContract := by
  unfold lowerNonceBatches
  rw [List.mem_filterMap]
  constructor
  · rintro ⟨a, ha, hf⟩
    cases a with
    | batch btx =>
        dsimp only at hf
        by_cases hc : btx.batchNonce < B.batchNonce ∧ btx.tokenContract = B.tokenContract
        · rw [if_pos hc] at hf
          cases hf
          exact ⟨ha, hc⟩
        · rw [if_neg hc] at hf
          cases hf
    | signerSet ss => cases hf
    | call cc => cases hf
  · rintro ⟨hmem, hlt, hc⟩
    refine ⟨OutgoingTx.batch b, hmem, ?_⟩
    dsimp only
    rw [if_pos ⟨hlt, hc⟩]

theorem sumBatchBurn_all (txs : List SendToEthereum) (c : String) (acc : Nat)
    (h : ∀ tx ∈ txs, tx.erc20Token.contract = c ∧ tx.erc20Fee.contract = c) :
    sumBatchBurn txs c acc =
      some (acc + (txs.map (fun tx => tx.erc20Token.amount + tx.erc20Fee.amount)).sum) := by
  induction txs generalizing acc with
  | nil => simp [sumBatchBurn]
  | cons tx rest ih =>
      have htx := h tx (by simp)
      rw [sumBatchBurn]
      rw [if_neg (by push_neg; exact ⟨htx.1, htx.2⟩)]
      rw [ih _ (fun t ht => h t (by simp [ht]))]
      congr 1
      simp only [List.map_cons, List.sum_cons]
      omega

theorem sumBatchBurn_mismatch (txs : List SendToEthereum) (c : String) (acc : Nat)
    (h : ∃ tx ∈ txs, tx.erc20Token.contract ≠ c ∨ tx.erc20Fee.contract ≠ c) :
    sumBatchBurn txs c acc = none := by
  induction txs generalizing acc with
  | nil => simp at h
  | cons tx rest ih =>
      rw [sumBatchBurn]
      by_cases hc : tx.erc20Token.contract ≠ c ∨ tx.erc20Fee.contract ≠ c
      · rw [if_pos hc]
      · rw [if_neg hc]
        apply ih
        rcases h with ⟨t, ht, hor⟩
        rcases List.mem_cons.mp ht with rfl | ht2
        · exact absurd hor hc
        · exact ⟨t, ht2, hor⟩

theorem batchTxExecuted_shape (s : GravityState) (bf : Bool) (c : String) (n : Nat)
    (B : BatchTx) (hB : getBatchTx s c n = some B) :
    ((batchTxExecuted s bf c n).error = none ∧
      (batchTxExecuted s bf c n).state =
        DeleteOutgoingTx ((lowerNonceBatches s B).foldl CancelBatchTx s)
          (StoreIndex.batch B.tokenContract B.batchNonce)) ∨
    ((batchTxExecuted s bf c n).error ≠ none ∧
      (batchTxExecuted s bf c n).state =
        (lowerNonceBatches s B).foldl CancelBatchTx s) := by
  unfold batchTxExecuted
  rw [hB]
  dsimp only
  split
  · exact Or.inl ⟨rfl, rfl⟩
  · split
    · exact Or.inr ⟨by simp, rfl⟩
    · split
      · exact Or.inr ⟨by simp, rfl⟩
      · exact Or.inl ⟨rfl, rfl⟩

/-- Claim C2: for every batch B present in the outgoing-tx store, once
batchTxExecuted(B.tokenContract, B.batchNonce) returns successfully, B is
deleted from the outgoing-tx store, every batch of the same token contract
with a strictly lower nonce is absent from the store, and each such cancelled
batch's transactions are re-inserted into the unbatched pool. -/
theorem batchTxExecuted_cancels_lower_batches (s : GravityState) (bf : Bool)
    (c : String) (n : Nat) (B : BatchTx)
    (hB : getBatchTx s c n = some B)
    (hok : (batchTxExecuted s bf c n).error = none) :
    getBatchTx (batchTxExecuted s bf c n).state c n = none ∧
    ∀ b2 : BatchTx, OutgoingTx.batch b2 ∈ s.otxs → b2.tokenContract = c →
      b2.batchNonce < n →
        OutgoingTx.batch b2 ∉ (batchTxExecuted s bf c n).state.otxs ∧
        ∀ tx ∈ b2.transactions, tx ∈ (batchTxExecuted s bf c n).state.pool := by
  obtain ⟨hmem, hBc, hBn⟩ := getBatchTx_some s c n B hB
  rcases batchTxExecuted_shape s bf c n B hB with ⟨_, hstate⟩ | ⟨herr, _⟩
  swap
  · exact absurd hok herr
  rw [hstate]
  constructor
  · -- the executed batch is gone from the store
    unfold getBatchTx GetOutgoingTx DeleteOutgoingTx
    have hnone : (((lowerNonceBatches s B).foldl CancelBatchTx s).otxs.filter
        (fun x => decide (x.GetStoreIndex ≠ StoreIndex.batch B.tokenContract B.batchNonce))).find?
          (fun x => decide (x.GetStoreIndex = StoreIndex.batch c n)) = none := by
      rw [List.find?_eq_none]
      intro x hx
      have hpred := (List.mem_filter.mp hx).2
      rw [decide_eq_true_eq] at hpred
      rw [hBc, hBn] at hpred
      simp [hpred]
    rw [hnone]
  · intro b2 hb2mem hb2c hb2n
    have hlow : b2 ∈ lowerNonceBatches s B := by
      rw [mem_lowerNonceBatches]
      exact ⟨hb2mem, by omega, by rw [hb2c, hBc]⟩
    constructor
    · -- b2 was cancelled and the final delete adds nothing back
      intro hcontra
      have h1 : OutgoingTx.batch b2 ∈
          ((lowerNonceBatches s B).foldl CancelBatchTx s).otxs :=
        (List.mem_filter.mp hcontra).1
      rw [foldl_cancel_otxs] at h1
      have h2 := (List.mem_filter.mp h1).2
      rw [List.all_eq_true] at h2
      have h3 := h2 b2 hlow
      simp [OutgoingTx.GetStoreIndex] at h3
    · intro tx htx
      show tx ∈ ((lowerNonceBatches s B).foldl CancelBatchTx s).pool
      exact foldl_cancel_pool_mem _ _ b2 hlow tx htx

/-- Sample state for the cancellation claims: two batches for token 0xT with
nonces 1 and 2, a cosmos-originated denom entry, and an empty pool. -/
def steLow : SendToEthereum :=
  { id := 1, sender := "cosmos1a", ethereumRecipient := "0xr1",
    erc20Token := { contract := "0xT", amount := 10 },
    erc20Fee := { contract := "0xT", amount := 5 } }

def steHigh : SendToEthereum :=
  { id := 2, sender := "cosmos1b", ethereumRecipient := "0xr2",
    erc20Token := { contract := "0xT", amount := 100 },
    erc20Fee := { contract := "0xT", amount := 2 } }

def batchLow : BatchTx :=
  { batchNonce := 1, timeout := 0, transactions := [steLow],
    tokenContract := "0xT", height := 1 }

def batchHigh : BatchTx :=
  { batchNonce := 2, timeout := 0, transactions := [steHigh],
    tokenContract := "0xT", height := 2 }

def execState : GravityState :=
  { signerExampleState with
    otxs := [OutgoingTx.batch batchLow, OutgoingTx.batch batchHigh],
    denomDirectory := [("0xT", (true, "utoken"))] }

theorem batchTxExecuted_cancels_lower_batches_witness :
    getBatchTx execState "0xT" 2 = some batchHigh ∧
    (batchTxExecuted execState false "0xT" 2).error = none ∧
    getBatchTx (batchTxExecuted execState false "0xT" 2).state "0xT" 2 = none ∧
    OutgoingTx.batch batchLow ∉ (batchTxExecuted execState false "0xT" 2).state.otxs ∧
    steLow ∈ (batchTxExecuted execState false "0xT" 2).state.pool := by
  refine ⟨by decide, by decide, ?_, ?_, ?_⟩
  · exact (batchTxExecuted_cancels_lower_batches execState false "0xT" 2 batchHigh
      (by decide) (by decide)).1
  · exact ((batchTxExecuted_cancels_lower_batches execState false "0xT" 2 batchHigh
      (by decide) (by decide)).2 batchLow (by decide) (by decide) (by decide)).1
  · exact ((batchTxExecuted_cancels_lower_batches execState false "0xT" 2 batchHigh
      (by decide) (by decide)).2 batchLow (by decide) (by decide) (by decide)).2
      steLow (by decide)

/-- Claim C9: when batchTxExecuted returns an error (contract mismatch inside
the batch, or bank burn failure), the mutations already performed are kept:
every lower-nonce batch of the same token has been cancelled (gone from the
store, transactions back in the pool) while the executed batch itself is
still present — the operation is not atomic on error. -/
theorem batchTxExecuted_error_keeps_partial_state (s : GravityState) (bf : Bool)
    (c : String) (n : Nat) (B : BatchTx)
    (hB : getBatchTx s c n = some B)
    (herr : (batchTxExecuted s bf c n).error ≠ none) :
    getBatchTx (batchTxExecuted s bf c n).state c n = some B ∧
    ∀ b2 : BatchTx, OutgoingTx.batch b2 ∈ s.otxs → b2.tokenContract = c →
      b2.batchNonce < n →
        OutgoingTx.batch b2 ∉ (batchTxExecuted s bf c n).state.otxs ∧
        ∀ tx ∈ b2.transactions, tx ∈ (batchTxExecuted s bf c n).state.pool := by
  obtain ⟨hmem, hBc, hBn⟩ := getBatchTx_some s c n B hB
  rcases batchTxExecuted_shape s bf c n B hB with ⟨hok, _⟩ | ⟨_, hstate⟩
  · exact absurd hok herr
  rw [hstate]
  constructor
  · -- the executed batch survives the cancellations
    unfold getBatchTx GetOutgoingTx
    rw [foldl_cancel_otxs]
    rw [find?_filter_of_imp]
    · exact hB
    · intro x hx
      rw [decide_eq_true_eq] at hx
      rw [List.all_eq_true]
      intro b hb
      rw [mem_lowerNonceBatches] at hb
      rw [decide_eq_true_eq, hx]
      intro hcontra
      cases hcontra
      omega
  · intro b2 hb2mem hb2c hb2n
    have hlow : b2 ∈ lowerNonceBatches s B := by
      rw [mem_lowerNonceBatches]
      exact ⟨hb2mem, by omega, by rw [hb2c, hBc]⟩
    constructor
    · intro hcontra
      rw [foldl_cancel_otxs] at hcontra
      have h2 := (List.mem_filter.mp hcontra).2
      rw [List.all_eq_true] at h2
      have h3 := h2 b2 hlow
      simp [OutgoingTx.GetStoreIndex] at h3
    · intro tx htx
      exact foldl_cancel_pool_mem _ _ b2 hlow tx htx

/-- Batch with a transaction whose amount is denominated in a different token
contract than the batch, on a foreign-originated token. -/
def steWrong : SendToEthereum :=
  { id := 3, sender := "cosmos1c", ethereumRecipient := "0xr3",
    erc20Token := { contract := "0xU", amount := 7 },
    erc20Fee := { contract := "0xT", amount := 1 } }

def batchWrong : BatchTx :=
  { batchNonce := 2, timeout := 0, transactions := [steWrong],
    tokenContract := "0xT", height := 2 }

def execErrState : GravityState :=
  { signerExampleState with
    otxs := [OutgoingTx.batch batchLow, OutgoingTx.batch batchWrong],
    denomDirectory := [("0xT", (false, "gravity0xT"))] }

theorem batchTxExecuted_error_keeps_partial_state_witness :
    (batchTxExecuted execErrState false "0xT" 2).error ≠ none ∧
    getBatchTx (batchTxExecuted execErrState false "0xT" 2).state "0xT" 2 = some batchWrong ∧
    OutgoingTx.batch batchLow ∉ (batchTxExecuted execErrState false "0xT" 2).state.otxs ∧
    steLow ∈ (batchTxExecuted execErrState false "0xT" 2).state.pool := by
  refine ⟨by decide, ?_, ?_, ?_⟩
  · exact (batchTxExecuted_error_keeps_partial_state execErrState false "0xT" 2 batchWrong
      (by decide) (by decide)).1
  · exact ((batchTxExecuted_error_keeps_partial_state execErrState false "0xT" 2 batchWrong
      (by decide) (by decide)).2 batchLow (by decide) (by decide) (by decide)).1
  · exact ((batchTxExecuted_error_keeps_partial_state execErrState false "0xT" 2 batchWrong
      (by decide) (by decide)).2 batchLow (by decide) (by decide) (by decide)).2
      steLow (by decide)

/-- Claim C4: for an executed batch on a non-home-originated token whose
transactions all carry the batch's token contract, exactly one bank burn call
is made, for the sum of amount + fee over the batch, in the directory's denom;
for home-originated tokens no burn call is made; a transaction whose amount or
fee contract differs from the batch's token contract yields an invariant
error (and no burn call). -/
theorem batchTxExecuted_burn_behavior (s : GravityState) (bf : Bool)
    (c : String) (n : Nat) (B : BatchTx)
    (hB : getBatchTx s c n = some B) :
    ((ERC20ToDenomLookup s c).1 = true →
      (batchTxExecuted s bf c n).burns = [] ∧
      (batchTxExecuted s bf c n).error = none) ∧
    ((ERC20ToDenomLookup s c).1 = false →
      (∀ tx ∈ B.transactions,
        tx.erc20Token.contract = c ∧ tx.erc20Fee.contract = c) →
      (batchTxExecuted s bf c n).burns =
        [((ERC20ToDenomLookup s c).2,
          (B.transactions.map (fun tx => tx.erc20Token.amount + tx.erc20Fee.amount)).sum)]) ∧
    ((ERC20ToDenomLookup s c).1 = false →
      (∃ tx ∈ B.transactions,
        tx.erc20Token.contract ≠ c ∨ tx.erc20Fee.contract ≠ c) →
      (batchTxExecuted s bf c n).error ≠ none ∧
      (batchTxExecuted s bf c n).burns = []) := by
  obtain ⟨hmem, hBc, hBn⟩ := getBatchTx_some s c n B hB
  have hlk : ERC20ToDenomLookup ((lowerNonceBatches s B).foldl CancelBatchTx s)
      B.tokenContract = ERC20ToDenomLookup s c := by
    rw [hBc]
    exact ERC20ToDenomLookup_congr _ _ _ (foldl_cancel_fields _ _).2
  unfold batchTxExecuted
  rw [hB]
  dsimp only
  rw [hlk]
  refine ⟨?_, ?_, ?_⟩
  · intro hcos
    rw [if_pos hcos]
    exact ⟨rfl, rfl⟩
  · intro hfor hall
    rw [if_neg (by rw [hfor]; exact Bool.false_ne_true)]
    rw [sumBatchBurn_all B.transactions B.tokenContract 0
      (by intro tx htx; rw [hBc]; exact hall tx htx)]
    dsimp only
    cases bf
    · rw [if_neg Bool.false_ne_true]
      rw [Nat.zero_add]
    · rw [if_pos rfl]
      rw [Nat.zero_add]
  · intro hfor hmis
    rw [if_neg (by rw [hfor]; exact Bool.false_ne_true)]
    rw [sumBatchBurn_mismatch B.transactions B.tokenContract 0
      (by rcases hmis with ⟨t, ht, hor⟩
          exact ⟨t, ht, by rw [hBc]; exact hor⟩)]
    exact ⟨by simp, rfl⟩

/-- Spec scenario S4: one transfer with amount 100 and fee 2 on a
foreign-originated token burns exactly 102 in the home denom; the same batch
on a home-originated token makes no burn call; a mismatched batch errors. -/
def burnState : GravityState :=
  { signerExampleState with
    otxs := [OutgoingTx.batch batchHigh],
    denomDirectory := [("0xT", (false, "gravity0xT"))] }

theorem batchTxExecuted_burn_behavior_witness :
    (batchTxExecuted burnState false "0xT" 2).burns = [("gravity0xT", 102)] ∧
    (batchTxExecuted execState false "0xT" 2).burns = [] ∧
    (batchTxExecuted execErrState false "0xT" 2).error ≠ none := by
  refine ⟨?_, ?_, ?_⟩
  · exact (batchTxExecuted_burn_behavior burnState false "0xT" 2 batchHigh
      (by decide)).2.1 (by decide) (by decide)
  · exact ((batchTxExecuted_burn_behavior execState false "0xT" 2 batchHigh
      (by decide)).1 (by decide)).1
  · exact ((batchTxExecuted_burn_behavior execErrState false "0xT" 2 batchWrong
      (by decide)).2.2 (by decide) (by decide)).1

/- Batch builder lemmas. -/

theorem selectLoop_neg (l : List SendToEthereum) (m : Int) (acc : List SendToEthereum)
    (hm : m < 0) : selectLoop l m acc = acc ++ l := by
  induction l generalizing acc with
  | nil => simp [selectLoop]
  | cons t rest ih =>
      rw [selectLoop]
      rw [if_neg (by intro heq; omega)]
      rw [ih]
      simp

theorem feeLoop_neg (l : List SendToEthereum) (m : Int) (i acc : Nat)
    (hm : m < 0) :
    feeLoop l m i acc = acc + (l.map (fun t => t.erc20Fee.amount)).sum := by
  induction l generalizing i acc with
  | nil => simp [feeLoop]
  | cons t rest ih =>
      rw [feeLoop]
      rw [if_neg (by intro heq; omega)]
      rw [ih]
      simp only [List.map_cons, List.sum_cons]
      omega

theorem mem_insertSteSorted (x a : SendToEthereum) (l : List SendToEthereum) :
    x ∈ insertSteSorted a l ↔ x = a ∨ x ∈ l := by
  induction l with
  | nil => simp [insertSteSorted]
  | cons y ys ih =>
      rw [insertSteSorted]
      by_cases h : steBefore a y = true
      · rw [if_pos h]
        simp only [List.mem_cons]
      · rw [if_neg h]
        simp only [List.mem_cons, ih]
        tauto

theorem mem_sortStes (x : SendToEthereum) (l : List SendToEthereum) :
    x ∈ sortStes l ↔ x ∈ l := by
  induction l with
  | nil => simp [sortStes]
  | cons a l ih =>
      show x ∈ insertSteSorted a (sortStes l) ↔ _
      rw [mem_insertSteSorted]
      rw [show x ∈ sortStes l ↔ x ∈ l from ih]
      simp [List.mem_cons]

theorem mem_foldl_deleteUnbatched (sel : List SendToEthereum)
    (pool : List SendToEthereum) (p : SendToEthereum)
    (h : p ∈ sel.foldl deleteUnbatchedSendToEthereum pool) :
    p ∈ pool ∧ ∀ q ∈ sel, ¬ (p.erc20Fee.contract = q.erc20Fee.contract ∧
      p.erc20Fee.amount = q.erc20Fee.amount ∧ p.id = q.id) := by
  induction sel generalizing pool with
  | nil => exact ⟨h, by simp⟩
  | cons q sel ih =>
      rw [List.foldl_cons] at h
      obtain ⟨hp, hrest⟩ := ih _ h
      have hp2 := List.mem_filter.mp hp
      refine ⟨hp2.1, ?_⟩
      intro r hr
      rcases List.mem_cons.mp hr with rfl | hr2
      · have hd := hp2.2
        rw [decide_eq_true_eq] at hd
        exact hd
      · exact hrest r hr2

/-- Claim C3: when a batch for the token already exists and its fees are at
least the candidate fee sum of the first maxElements unbatched entries,
BuildBatchTx returns none and leaves the whole keeper state — pool,
outgoing-tx store, nonce counter and events — exactly as before. -/
theorem BuildBatchTx_unprofitable_noop (s : GravityState) (c : String) (m : Int)
    (lb : BatchTx)
    (hlast : getLastOutgoingBatchByTokenType s c = some lb)
    (hfees : getBatchFeesByTokenType s c m ≤ batchFees lb) :
    BuildBatchTx s c m = (s, none) := by
  unfold BuildBatchTx
  by_cases hm : m = 0
  · rw [if_pos hm]
  · rw [if_neg hm]
    have hu : unprofitable s c m = true := by
      unfold unprofitable
      rw [hlast]
      exact decide_eq_true hfees
    rw [if_pos hu]

/-- Pending batch with fees 5 and an unbatched entry with fee 1 for the same
token: the builder must refuse. -/
def steSmallFee : SendToEthereum :=
  { id := 4, sender := "cosmos1d", ethereumRecipient := "0xr4",
    erc20Token := { contract := "0xT", amount := 3 },
    erc20Fee := { contract := "0xT", amount := 1 } }

def profitState : GravityState :=
  { signerExampleState with
    otxs := [OutgoingTx.batch batchLow],
    pool := [steSmallFee] }

theorem BuildBatchTx_unprofitable_noop_witness :
    getLastOutgoingBatchByTokenType profitState "0xT" = some batchLow ∧
    getBatchFeesByTokenType profitState "0xT" 2 ≤ batchFees batchLow ∧
    BuildBatchTx profitState "0xT" 2 = (profitState, none) :=
  ⟨by decide, by decide,
   BuildBatchTx_unprofitable_noop profitState "0xT" 2 batchLow (by decide) (by decide)⟩

/- Nonce monotonicity lemmas. -/

theorem BuildBatchTx_some_nonce (s : GravityState) (c : String) (m : Int) (b : BatchTx)
    (h : (BuildBatchTx s c m).2 = some b) :
    b.batchNonce = s.lastBatchNonce + 1 ∧
    (BuildBatchTx s c m).1.lastBatchNonce = s.lastBatchNonce + 1 := by
  unfold BuildBatchTx at h ⊢
  by_cases hm : m = 0
  · rw [if_pos hm] at h; cases h
  · rw [if_neg hm] at h ⊢
    by_cases hu : unprofitable s c m = true
    · rw [if_pos hu] at h; cases h
    · rw [if_neg hu] at h ⊢
      dsimp only at h ⊢
      by_cases hsel : selectLoop (unbatchedByContract s c) m [] = []
      · rw [if_pos hsel] at h; cases h
      · rw [if_neg hsel] at h ⊢
        dsimp only at h ⊢
        injection h with h2
        constructor
        · rw [← h2]
        · rfl

theorem BuildBatchTx_lastBatchNonce_mono (s : GravityState) (c : String) (m : Int) :
    s.lastBatchNonce ≤ (BuildBatchTx s c m).1.lastBatchNonce := by
  unfold BuildBatchTx
  by_cases hm : m = 0
  · rw [if_pos hm]
  · rw [if_neg hm]
    by_cases hu : unprofitable s c m = true
    · rw [if_pos hu]
    · rw [if_neg hu]
      dsimp only
      by_cases hsel : selectLoop (unbatchedByContract s c) m [] = []
      · rw [if_pos hsel]
      · rw [if_neg hsel]
        exact Nat.le_succ _

theorem batchTxExecuted_lastBatchNonce (s : GravityState) (bf : Bool)
    (c : String) (n : Nat) :
    (batchTxExecuted s bf c n).state.lastBatchNonce = s.lastBatchNonce := by
  unfold batchTxExecuted
  cases hB : getBatchTx s c n with
  | none => rfl
  | some B =>
      dsimp only
      have h1 := (foldl_cancel_fields (lowerNonceBatches s B) s).1
      split
      · exact h1
      · split
        · exact h1
        · split
          · exact h1
          · exact h1

theorem applyOp_lastBatchNonce_mono (s : GravityState) (op : GravityOp) :
    s.lastBatchNonce ≤ (applyOp s op).lastBatchNonce := by
  cases op with
  | build c m => exact BuildBatchTx_lastBatchNonce_mono s c m
  | execute bf c n =>
      show s.lastBatchNonce ≤ (batchTxExecuted s bf c n).state.lastBatchNonce
      rw [batchTxExecuted_lastBatchNonce]
  | cancel c n =>
      show s.lastBatchNonce ≤ (match getBatchTx s c n with
        | some b => CancelBatchTx s b
        | none => s).lastBatchNonce
      cases getBatchTx s c n
      · exact Nat.le_refl _
      · exact Nat.le_refl _

theorem applyOps_lastBatchNonce_mono (s : GravityState) (ops : List GravityOp) :
    s.lastBatchNonce ≤ (applyOps s ops).lastBatchNonce := by
  induction ops generalizing s with
  | nil => exact Nat.le_refl _
  | cons op ops ih =>
      calc s.lastBatchNonce ≤ (applyOp s op).lastBatchNonce :=
            applyOp_lastBatchNonce_mono s op
        _ ≤ (applyOps (applyOp s op) ops).lastBatchNonce := ih _

/-- Claim C5: across any two BuildBatchTx calls that both create a batch, with
any sequence of batch-subsystem operations in between, the later batch's
nonce is strictly greater than the earlier one's; the persisted counter is
incremented in the same state update that creates the batch (it equals the
new batch's nonce immediately after the call). -/
theorem BuildBatchTx_nonces_increase (s : GravityState) (c1 c2 : String)
    (m1 m2 : Int) (b1 b2 : BatchTx) (ops : List GravityOp)
    (h1 : (BuildBatchTx s c1 m1).2 = some b1)
    (h2 : (BuildBatchTx (applyOps (BuildBatchTx s c1 m1).1 ops) c2 m2).2 = some b2) :
    b1.batchNonce < b2.batchNonce ∧
    (BuildBatchTx s c1 m1).1.lastBatchNonce = b1.batchNonce := by
  obtain ⟨hb1, hs1⟩ := BuildBatchTx_some_nonce s c1 m1 b1 h1
  obtain ⟨hb2, _⟩ := BuildBatchTx_some_nonce _ c2 m2 b2 h2
  have hmono := applyOps_lastBatchNonce_mono (BuildBatchTx s c1 m1).1 ops
  constructor
  · omega
  · omega

/-- Two pool entries on different tokens: building a batch for each in turn
yields nonces 1 then 2. -/
def steTokenA : SendToEthereum :=
  { id := 10, sender := "cosmos1e", ethereumRecipient := "0xr5",
    erc20Token := { contract := "0xA", amount := 5 },
    erc20Fee := { contract := "0xA", amount := 3 } }

def steTokenB : SendToEthereum :=
  { id := 11, sender := "cosmos1f", ethereumRecipient := "0xr6",
    erc20Token := { contract := "0xB", amount := 6 },
    erc20Fee := { contract := "0xB", amount := 4 } }

def buildState : GravityState :=
  { signerExampleState with pool := [steTokenA, steTokenB] }

def batchFirst : BatchTx :=
  { batchNonce := 1, timeout := 0, transactions := [steTokenA],
    tokenContract := "0xA", height := 10 }

def batchSecond : BatchTx :=
  { batchNonce := 2, timeout := 0, transactions := [steTokenB],
    tokenContract := "0xB", height := 10 }

theorem BuildBatchTx_nonces_increase_witness :
    (BuildBatchTx buildState "0xA" 1).2 = some batchFirst ∧
    (BuildBatchTx (applyOps (BuildBatchTx buildState "0xA" 1).1 []) "0xB" 1).2 =
      some batchSecond ∧
    (batchFirst.batchNonce < batchSecond.batchNonce ∧
     (BuildBatchTx buildState "0xA" 1).1.lastBatchNonce = batchFirst.batchNonce) :=
  ⟨by decide, by decide,
   BuildBatchTx_nonces_increase buildState "0xA" "0xB" 1 1 batchFirst batchSecond []
     (by decide) (by decide)⟩

/-- Claim C10: a negative maxElements disables the size cap entirely — the
candidate fee sum ranges over every unbatched entry for the contract, a batch
created by the call contains all of them and drains the contract's unbatched
pool, and none is returned only for an empty candidate set or a
non-profitable batch (never from the early maxElements == 0 return). -/
theorem BuildBatchTx_negative_max (s : GravityState) (c : String) (m : Int)
    (hm : m < 0) :
    getBatchFeesByTokenType s c m =
      ((unbatchedByContract s c).map (fun t => t.erc20Fee.amount)).sum ∧
    (∀ b, (BuildBatchTx s c m).2 = some b →
      b.transactions = unbatchedByContract s c ∧
      ∀ p ∈ (BuildBatchTx s c m).1.pool, p.erc20Fee.contract ≠ c) ∧
    ((BuildBatchTx s c m).2 = none →
      unbatchedByContract s c = [] ∨ unprofitable s c m = true) := by
  have hsel : selectLoop (unbatchedByContract s c) m [] = unbatchedByContract s c := by
    rw [selectLoop_neg _ _ _ hm]
    simp
  have hm0 : ¬ m = 0 := by omega
  refine ⟨?_, ?_, ?_⟩
  · unfold getBatchFeesByTokenType
    rw [feeLoop_neg _ _ _ _ hm]
    simp
  · intro b hb
    unfold BuildBatchTx at hb ⊢
    rw [if_neg hm0] at hb ⊢
    by_cases hu : unprofitable s c m = true
    · rw [if_pos hu] at hb; cases hb
    · rw [if_neg hu] at hb ⊢
      dsimp only at hb ⊢
      rw [hsel] at hb ⊢
      by_cases hemp : unbatchedByContract s c = []
      · rw [if_pos hemp] at hb; cases hb
      · rw [if_neg hemp] at hb ⊢
        dsimp only at hb ⊢
        injection hb with hb2
        constructor
        · rw [← hb2]
        · intro p hp hpc
          have hdel := mem_foldl_deleteUnbatched _ _ _ hp
          have hpin : p ∈ unbatchedByContract s c := by
            unfold unbatchedByContract
            rw [mem_sortStes, List.mem_filter]
            exact ⟨hdel.1, by rw [decide_eq_true_eq]; exact hpc⟩
          exact hdel.2 p hpin ⟨rfl, rfl, rfl⟩
  · intro hb
    unfold BuildBatchTx at hb
    rw [if_neg hm0] at hb
    by_cases hu : unprofitable s c m = true
    · exact Or.inr hu
    · rw [if_neg hu] at hb
      dsimp only at hb
      rw [hsel] at hb
      by_cases hemp : unbatchedByContract s c = []
      · exact Or.inl hemp
      · rw [if_neg hemp] at hb
        dsimp only at hb
        cases hb

/-- Two unbatched entries for token 0xA, fees 3 and 1: a call with
maxElements = -1 puts both into a single batch. -/
def steTokenA2 : SendToEthereum :=
  { id := 12, sender := "cosmos1g", ethereumRecipient := "0xr7",
    erc20Token := { contract := "0xA", amount := 2 },
    erc20Fee := { contract := "0xA", amount := 1 } }

def drainState : GravityState :=
  { signerExampleState with pool := [steTokenA, steTokenA2] }

def drainBatch : BatchTx :=
  { batchNonce := 1, timeout := 0, transactions := [steTokenA, steTokenA2],
    tokenContract := "0xA", height := 10 }

theorem BuildBatchTx_negative_max_witness :
    (-1 : Int) < 0 ∧
    (BuildBatchTx drainState "0xA" (-1)).2 = some drainBatch ∧
    (drainBatch.transactions = unbatchedByContract drainState "0xA" ∧
     ∀ p ∈ (BuildBatchTx drainState "0xA" (-1)).1.pool, p.erc20Fee.contract ≠ "0xA") :=
  ⟨by decide, by decide,
   (BuildBatchTx_negative_max drainState "0xA" (-1) (by decide)).2.1 drainBatch (by decide)⟩

/- Migration sweeper (MigrateGravityContract). -/

/-- DeleteEthereumSignatures: prefix sweep deleting every signature stored
under the given outgoing tx's store index. -/
def DeleteEthereumSignatures (s : GravityState) (otx : OutgoingTx) : GravityState :=
  { s with sigs := s.sigs.filter (fun g => decide (g.1 ≠ otx.GetStoreIndex)) }

/-- One iteration of the migration sweep loop: delete the outgoing tx's
signatures, then delete the outgoing tx itself. -/
def migrateSweepStep (st : GravityState) (otx : OutgoingTx) : GravityState :=
  let st2 := DeleteEthereumSignatures st otx
  { st2 with otxs := st2.otxs.filter (fun x => decide (x.GetStoreIndex ≠ otx.GetStoreIndex)) }

/-- Modelled from the spec: setLastEventNonceByValidator (not under src) writes
the given event nonce for the validator. -/
def setLastEventNonceByValidator (l : List (String × Nat)) (val : String) (n : Nat) :
    List (String × Nat) :=
  if l.any (fun e => decide (e.1 = val))
  then l.map (fun e => if e.1 = val then (val, n) else e)
  else l ++ [(val, n)]

/-- MigrateGravityContract: sweeps every outgoing tx (deleting its signatures
first), zeroes the signer-set nonce, the observed event nonce and the
per-validator event nonces of every voter, deletes all event vote records,
records the last observed heights as (current home height, deployment height
minus one, in uint64 arithmetic), resets the last observed signer set, zeroes
the batch nonce counter and updates the bridge contract address parameter. -/
def MigrateGravityContract (s : GravityState) (newBridgeAddress : String)
    (bridgeDeploymentHeight : Nat) : GravityState :=
  let s1 := s.otxs.foldl migrateSweepStep s
  { s1 with
    lastSignerSetNonce := 0,
    lastObservedEventNonce := 0,
    eventNonceByVal := s1.eventVoteRecords.foldl
      (fun m vr => vr.2.foldl (fun m2 v => setLastEventNonceByValidator m2 v 0) m)
      s1.eventNonceByVal,
    eventVoteRecords := [],
    lastObservedHeights := (s1.blockHeight, sub64 bridgeDeploymentHeight 1),
    lastObservedSignerSet := { nonce := 0, height := 0, signers := [] },
    lastBatchNonce := 0,
    params := { s1.params with bridgeEthereumAddress := newBridgeAddress } }

theorem foldl_sweep_otxs (l : List OutgoingTx) (st : GravityState) :
    (l.foldl migrateSweepStep st).otxs =
      st.otxs.filter (fun x => l.all (fun o =>
        decide (x.GetStoreIndex ≠ o.GetStoreIndex))) := by
  induction l generalizing st with
  | nil => simp
  | cons o l ih =>
      rw [List.foldl_cons, ih]
      show (st.otxs.filter _).filter _ = _
      rw [List.filter_filter]
      apply List.filter_congr
      intro x _
      simp [List.all_cons, Bool.and_comm]

theorem foldl_sweep_sigs (l : List OutgoingTx) (st : GravityState) :
    (l.foldl migrateSweepStep st).sigs =
      st.sigs.filter (fun g => l.all (fun o =>
        decide (g.1 ≠ o.GetStoreIndex))) := by
  induction l generalizing st with
  | nil => simp
  | cons o l ih =>
      rw [List.foldl_cons, ih]
      show (st.sigs.filter _).filter _ = _
      rw [List.filter_filter]
      apply List.filter_congr
      intro g _
      simp [List.all_cons, Bool.and_comm]

theorem foldl_sweep_blockHeight (l : List OutgoingTx) (st : GravityState) :
    (l.foldl migrateSweepStep st).blockHeight = st.blockHeight := by
  induction l generalizing st with
  | nil => rfl
  | cons o l ih =>
      rw [List.foldl_cons]
      exact ih (migrateSweepStep st o)

/-- Claim C6 (amended): after MigrateGravityContract(newAddr, H) the
outgoing-tx store is empty, the batch-nonce and signer-set-nonce counters are
zero, the bridge address parameter is newAddr, and the last observed heights
are (H - 1 in uint64 arithmetic, current home height).  The signature index
is empty PROVIDED every stored signature references an outgoing tx still in
the store: the sweeper only deletes signatures together with their outgoing
tx, so orphaned signatures (left behind by CancelBatchTx or batchTxExecuted,
which do not delete signatures) survive the migration. -/
theorem MigrateGravityContract_postconditions (s : GravityState)
    (newAddr : String) (h : Nat)
    (hinv : ∀ g ∈ s.sigs, ∃ o ∈ s.otxs, o.GetStoreIndex = g.1) :
    (MigrateGravityContract s newAddr h).otxs = [] ∧
    (MigrateGravityContract s newAddr h).sigs = [] ∧
    (MigrateGravityContract s newAddr h).lastBatchNonce = 0 ∧
    (MigrateGravityContract s newAddr h).lastSignerSetNonce = 0 ∧
    (MigrateGravityContract s newAddr h).params.bridgeEthereumAddress = newAddr ∧
    (MigrateGravityContract s newAddr h).lastObservedHeights =
      (s.blockHeight, sub64 h 1) := by
  unfold MigrateGravityContract
  dsimp only
  refine ⟨?_, ?_, rfl, rfl, rfl, ?_⟩
  · rw [foldl_sweep_otxs]
    apply List.eq_nil_iff_forall_not_mem.mpr
    intro x hx
    have h2 := (List.mem_filter.mp hx).2
    rw [List.all_eq_true] at h2
    have h3 := h2 x (List.mem_filter.mp hx).1
    simp at h3
  · rw [foldl_sweep_sigs]
    apply List.eq_nil_iff_forall_not_mem.mpr
    intro g hg
    have hmem := (List.mem_filter.mp hg).1
    have h2 := (List.mem_filter.mp hg).2
    rw [List.all_eq_true] at h2
    obtain ⟨o, ho, hidx⟩ := hinv g hmem
    have h3 := h2 o ho
    rw [decide_eq_true_eq] at h3
    exact h3 hidx.symm
  · rw [foldl_sweep_blockHeight]

/-- A populated pre-migration state: one batch with a signature attached,
nonzero counters. -/
def migState : GravityState :=
  { signerExampleState with
    otxs := [OutgoingTx.batch batchLow],
    sigs := [(StoreIndex.batch "0xT" 1, ("val1", "sigbytes"))],
    lastBatchNonce := 7,
    lastSignerSetNonce := 3 }

theorem MigrateGravityContract_postconditions_witness :
    (∀ g ∈ migState.sigs, ∃ o ∈ migState.otxs, o.GetStoreIndex = g.1) ∧
    ((MigrateGravityContract migState "0xNewBridge" 5).otxs = [] ∧
     (MigrateGravityContract migState "0xNewBridge" 5).sigs = [] ∧
     (MigrateGravityContract migState "0xNewBridge" 5).lastBatchNonce = 0 ∧
     (MigrateGravityContract migState "0xNewBridge" 5).lastSignerSetNonce = 0 ∧
     (MigrateGravityContract migState "0xNewBridge" 5).params.bridgeEthereumAddress =
       "0xNewBridge" ∧
     (MigrateGravityContract migState "0xNewBridge" 5).lastObservedHeights =
       (migState.blockHeight, sub64 5 1)) :=
  ⟨by decide, MigrateGravityContract_postconditions migState "0xNewBridge" 5 (by decide)⟩

/-- Starting state with an orphaned signature: the store no longer contains
the outgoing tx the signature references. -/
def orphanSigState : GravityState :=
  { signerExampleState with
    otxs := [],
    sigs := [(StoreIndex.batch "0xa" 1, ("val1", "sig"))] }

/-- Counterexample for C6: migrating `orphanSigState` leaves the orphaned
signature in place — the Ethereum-signature index is not empty afterwards. -/
theorem MigrateGravityContract_orphan_counterexample :
    (MigrateGravityContract orphanSigState "0xb" 5).sigs =
      [(StoreIndex.batch "0xa" 1, ("val1", "sig"))] ∧
    (MigrateGravityContract orphanSigState "0xb" 5).sigs ≠ [] := by
  constructor
  · decide
  · decide

/-
  Address directory reverse lookup (getValidatorsByEthereumAddress), modelled
  at the byte level because the function iterates the raw KV store.
-/

/-- Modelled from the spec: the distinct one-byte prefix of the
orchestrator-to-validator index (types package, not under src). -/
def OrchestratorValidatorAddressKey : Nat := 2

/-- Modelled from the spec: the distinct one-byte prefix of the
validator-to-Ethereum-address forward index (types package, not under src). -/
def ValidatorEthereumAddressKey : Nat := 3

/-- common.BytesToAddress: the last twenty bytes of the input, left-padded
with zero bytes when shorter. -/
def bytesToAddress (v : List Nat) : List Nat :=
  if v.length ≥ 20 then v.drop (v.length - 20)
  else List.replicate (20 - v.length) 0 ++ v

/-- Whether a byte string starts with the given byte. -/
def startsWithByte (b : Nat) : List Nat → Bool
  | [] => false
  | x :: _ => decide (x = b)

/-- bytes.TrimPrefix for a one-byte prefix: drops the byte when present,
otherwise returns the key unchanged. -/
def trimLeadByte (b : Nat) (k : List Nat) : List Nat :=
  if startsWithByte b k then k.drop 1 else k

/-- getValidatorsByEthereumAddress: iterates the ENTIRE KV store (the iterator
is created with no prefix), collecting, for every entry whose value decodes
(as its trailing twenty bytes) to the queried address, the entry's key with
the forward-index prefix byte stripped when present. -/
def getValidatorsByEthereumAddress (store : List (List Nat × List Nat))
    (ethAddr : List Nat) : List (List Nat) :=
  store.filterMap (fun e =>
    if bytesToAddress e.2 = ethAddr
    then some (trimLeadByte ValidatorEthereumAddressKey e.1)
    else none)

/-- Modelled from the spec: the reverse lookup as the spec describes it — a
scan confined to the validator-to-foreign-address forward index, returning
exactly the validators the forward index maps to the queried address. -/
def validatorsByEthereumAddressSpec (store : List (List Nat × List Nat))
    (ethAddr : List Nat) : List (List Nat) :=
  store.filterMap (fun e =>
    if startsWithByte ValidatorEthereumAddressKey e.1 = true ∧ e.2 = ethAddr
    then some (e.1.drop 1)
    else none)

theorem filterMap_congr_mem {α β : Type} (l : List α) (f g : α → Option β)
    (h : ∀ x ∈ l, f x = g x) : l.filterMap f = l.filterMap g := by
  induction l with
  | nil => rfl
  | cons a l ih =>
      rw [List.filterMap_cons, List.filterMap_cons, h a (by simp),
        ih (fun x hx => h x (by simp [hx]))]

/-- Claim C8 (amended): the reverse lookup always returns every validator the
forward index maps to the queried (twenty-byte) address, and it coincides
with the forward-index-confined scan PROVIDED no entry of any other key space
has a value whose trailing twenty bytes equal the queried address.  Without
that proviso the scan, which ranges over the whole store, also returns keys
from other key spaces. -/
theorem getValidatorsByEthereumAddress_forward_scan
    (store : List (List Nat × List Nat)) (ethAddr : List Nat)
    (hlen : ethAddr.length = 20) :
    (∀ v, (ValidatorEthereumAddressKey :: v, ethAddr) ∈ store →
      v ∈ getValidatorsByEthereumAddress store ethAddr) ∧
    ((∀ e ∈ store, bytesToAddress e.2 = ethAddr →
        startsWithByte ValidatorEthereumAddressKey e.1 = true ∧ e.2 = ethAddr) →
      getValidatorsByEthereumAddress store ethAddr =
        validatorsByEthereumAddressSpec store ethAddr) := by
  have haddr : bytesToAddress ethAddr = ethAddr := by
    unfold bytesToAddress
    rw [if_pos (by omega)]
    rw [hlen]
    simp
  constructor
  · intro v hv
    unfold getValidatorsByEthereumAddress
    rw [List.mem_filterMap]
    refine ⟨(ValidatorEthereumAddressKey :: v, ethAddr), hv, ?_⟩
    rw [if_pos haddr]
    unfold trimLeadByte
    rw [if_pos (by unfold startsWithByte; exact decide_eq_true rfl)]
    rfl
  · intro hconf
    apply filterMap_congr_mem
    intro e he
    by_cases hb : bytesToAddress e.2 = ethAddr
    · obtain ⟨hpfx, hval⟩ := hconf e he hb
      rw [if_pos hb, if_pos ⟨hpfx, hval⟩]
      unfold trimLeadByte
      rw [if_pos hpfx]
    · rw [if_neg hb, if_neg ?_]
      rintro ⟨hpfx, hval⟩
      apply hb
      rw [hval, haddr]

/-- A well-formed store: a single forward-index entry mapping validator bytes
7...7 to address bytes 9...9. -/
def addressStore : List (List Nat × List Nat) :=
  [(ValidatorEthereumAddressKey :: List.replicate 20 7, List.replicate 20 9)]

theorem getValidatorsByEthereumAddress_forward_scan_witness :
    (List.replicate 20 9 : List Nat).length = 20 ∧
    List.replicate 20 7 ∈
      getValidatorsByEthereumAddress addressStore (List.replicate 20 9) ∧
    getValidatorsByEthereumAddress addressStore (List.replicate 20 9) =
      validatorsByEthereumAddressSpec addressStore (List.replicate 20 9) :=
  ⟨by decide,
   (getValidatorsByEthereumAddress_forward_scan addressStore (List.replicate 20 9)
     (by decide)).1 (List.replicate 20 7) (by decide),
   (getValidatorsByEthereumAddress_forward_scan addressStore (List.replicate 20 9)
     (by decide)).2 (by decide)⟩

/-- A store holding only an orchestrator-to-validator entry whose value bytes
happen to equal the queried Ethereum address. -/
def crossSpaceStore : List (List Nat × List Nat) :=
  [(OrchestratorValidatorAddressKey :: List.replicate 20 5, List.replicate 20 9)]

/-- Counterexample for C8: on `crossSpaceStore` the reverse lookup returns the
orchestrator-index key (prefix byte and all) even though the forward index
maps no validator to the queried address — the scan is not confined to the
forward index. -/
theorem getValidatorsByEthereumAddress_cross_space_counterexample :
    getValidatorsByEthereumAddress crossSpaceStore (List.replicate 20 9) =
      [OrchestratorValidatorAddressKey :: List.replicate 20 5] ∧
    validatorsByEthereumAddressSpec crossSpaceStore (List.replicate 20 9) = [] := by
  constructor
  · decide
  · decide
